import Mathlib

/-! Verification of vault-auto-unseal: access checks, policy handlers and parse helpers.

A shallow embedding of `common/utils.go` (`VerifyCreateAccess`, `VerifyListAccess`,
`ParseInt`, `ParseBool`) and of `policies/routers.go` (`PolicyList`, `PolicyRetrieve`,
`PolicyCreateOrUpdate`, `PolicyDelete`).

Conventions of the embedding:

* a Go `string` is a Lean `String`; Go compares strings byte by byte, which on valid
  UTF-8 text is equality of the character sequences (byte strings that are not
  valid UTF-8 are outside the model);
* a Go `map[string]bool` is an association list read with `List.lookup`; reading a key
  that is absent yields the zero value `false`;
* a Go panic (`MustGet` on a missing key, a failed type assertion) is the `error` case
  of `Except gin.Panic`;
* the collaborators of the handlers that live outside these files (the storage
  functions and the request-body validator) are fields of `policies.Env`; a handler
  returns the single response it writes with `c.JSON` together with the storage calls
  it made, in order;
* logging (`GetLogger`, `l.Debug`) has no effect on results and is left out.
-/

set_option autoImplicit false

deriving instance DecidableEq for Except

/-! ## `net/http` status codes used by the handlers -/

namespace http

abbrev StatusOK : Nat := 200
abbrev StatusBadRequest : Nat := 400
abbrev StatusForbidden : Nat := 403
abbrev StatusNotFound : Nat := 404
abbrev StatusMethodNotAllowed : Nat := 405
abbrev StatusUnprocessableEntity : Nat := 422
abbrev StatusInternalServerError : Nat := 500

end http

/-! ## The part of `gin.Context` the handlers read -/

namespace gin

/-- Values of dynamic type (Go `any`) stored under a context key. -/
inductive Value where
  /-- a Go `bool` -/
  | bool (b : Bool)
  /-- a Go `map[string]bool` -/
  | capabilities (m : List (String × Bool))
  /-- a value of any other dynamic type, named by `tag` -/
  | other (tag : String)
  deriving DecidableEq, Repr

/-- Ways in which reading the context can panic. -/
inductive Panic where
  /-- the panic of `MustGet` on a key that does not exist -/
  | keyDoesNotExist (key : String)
  /-- a type assertion `v.(T)` on a value of another dynamic type -/
  | typeAssertion (expected : String)
  deriving DecidableEq, Repr

/-- Request context: the `Keys` map filled by the middleware, the URL
parameters, the query string and the request body. -/
structure Context where
  Keys : List (String × Value)
  Params : List (String × String)
  QueryArgs : List (String × String)
  Body : String
  deriving DecidableEq, Repr

/-- The call `c.Get(key)`: the value stored under `key`, if any. -/
def Context.Get (c : Context) (key : String) : Option Value :=
  c.Keys.lookup key

/-- The call `c.MustGet(key)`: the value stored under `key`; panics when the key does not exist. -/
def Context.MustGet (c : Context) (key : String) : Except Panic Value :=
  match c.Get key with
  | some v => .ok v
  | none => .error (.keyDoesNotExist key)

/-- The call `c.Param(key)`: the URL parameter, or the empty string. -/
def Context.Param (c : Context) (key : String) : String :=
  (c.Params.lookup key).getD ""

/-- The call `c.Query(key)`: the first query value for `key`, or the empty string. -/
def Context.Query (c : Context) (key : String) : String :=
  (c.QueryArgs.lookup key).getD ""

/-- The type assertion `v.(bool)`. -/
def Value.assertBool : Value → Except Panic Bool
  | .bool b => .ok b
  | _ => .error (.typeAssertion "bool")

/-- The type assertion `v.(map[string]bool)`. -/
def Value.assertCapabilities : Value → Except Panic (List (String × Bool))
  | .capabilities m => .ok m
  | _ => .error (.typeAssertion "map[string]bool")

end gin

/-- Go map indexing `m[key]` on a `map[string]bool`: `false` when the key is absent. -/
def mapIndex (m : List (String × Bool)) (key : String) : Bool :=
  (m.lookup key).getD false

/-! ## `strconv`: the Go standard library parsers called by the helpers

`strconv.Atoi` and `strconv.ParseBool` as the Go standard library defines them,
following its control flow: the fast path of `Atoi` for short inputs, and the slow
path through `ParseInt(s, 10, 0)` and `ParseUint(s, 10, 0)` with their overflow
checks. A function returns the pair `(value, err)` as in Go; `err = none` is Go's
`nil`. Machine arithmetic is on `Nat` and `Int` with explicit wrap-around.

The loops run over the characters of the string where Go runs over its bytes. An
ASCII character is one byte with the same code; every byte of a longer character
is at least `0x80`, so it is neither a sign nor a digit, and both loops stop with
the same syntax error at that place. Lengths are byte lengths (`utf8ByteSize`).
-/

namespace strconv

/-- The two sentinel errors `ErrSyntax` and `ErrRange`. -/
inductive Err where
  | ErrSyntax
  | ErrRange
  deriving DecidableEq, Repr

/-- The `*NumError` value: failing function, input and cause. -/
structure NumError where
  Func : String
  Num : String
  Err : Err
  deriving DecidableEq, Repr

/-- Go `syntaxError(fn, str)`. -/
def syntaxError (fn str : String) : NumError := ⟨fn, str, .ErrSyntax⟩

/-- Go `rangeError(fn, str)`. -/
def rangeError (fn str : String) : NumError := ⟨fn, str, .ErrRange⟩

/-- Size of Go's `int`, a property of the target platform. -/
inductive Arch where
  | bits32
  | bits64
  deriving DecidableEq, Repr

/-- The constant `intSize` (exported as `IntSize`). -/
def intSize : Arch → Nat
  | .bits32 => 32
  | .bits64 => 64

/-- The constant `maxUint64 = 1<<64 - 1`. -/
abbrev maxUint64 : Nat := 2 ^ 64 - 1

/-- Conversion of an integer to a signed integer of `bits` bits, wrapping around. -/
def wrapInt (bits : Nat) (x : Int) : Int :=
  (x + 2 ^ (bits - 1)) % 2 ^ bits - 2 ^ (bits - 1)

/-- The byte is one of `'0'` to `'9'`. -/
def isDigit (c : Char) : Bool :=
  decide ('0'.toNat ≤ c.toNat ∧ c.toNat ≤ '9'.toNat)

/-- The value `c - '0'` of a digit. -/
def digitVal (c : Char) : Nat :=
  c.toNat - '0'.toNat

/-- Go `ParseBool`: a `switch` over the twelve accepted literals. -/
def ParseBool (str : String) : Bool × Option NumError :=
  if str = "1" ∨ str = "t" ∨ str = "T" ∨ str = "TRUE" ∨ str = "true" ∨ str = "True" then
    (true, none)
  else if str = "0" ∨ str = "f" ∨ str = "F" ∨ str = "FALSE" ∨ str = "false" ∨ str = "False" then
    (false, none)
  else
    (false, some (syntaxError "ParseBool" str))

/-- The digit loop of `ParseUint` in base 10, from accumulator `n`: a byte that is
not a decimal digit is a syntax error; `n >= cutoff` (the product would overflow
64 bits) and `n1 < n || n1 > maxVal` (the sum overflows or exceeds the target
size) are range errors returning `maxVal`. -/
def ParseUint.loop (maxVal : Nat) (s0 : String) : List Char → Nat → Nat × Option NumError
  | [], n => (n, none)
  | c :: cs, n =>
    if !isDigit c then (0, some (syntaxError "ParseUint" s0))
    else if n ≥ maxUint64 / 10 + 1 then (maxVal, some (rangeError "ParseUint" s0))
    else
      let m := (n * 10) % 2 ^ 64
      let n1 := (m + digitVal c) % 2 ^ 64
      if n1 < m ∨ n1 > maxVal then (maxVal, some (rangeError "ParseUint" s0))
      else ParseUint.loop maxVal s0 cs n1

/-- Go `ParseUint(s, 10, 0)`: the empty string is a syntax error; `bitSize = 0`
selects `IntSize`, so `maxVal = 1<<IntSize - 1`. -/
def ParseUint (a : Arch) (s : String) : Nat × Option NumError :=
  if s = "" then (0, some (syntaxError "ParseUint" s))
  else ParseUint.loop (2 ^ intSize a - 1) s s.data 0

/-- Go `ParseInt(s, 10, 0)`: the empty string is a syntax error; otherwise the sign
`s[0]` is picked off, the magnitude is parsed with `ParseUint` and checked against
`cutoff = 1 << (IntSize-1)`, and the result is `int64(un)`, negated for `-`. A
syntax error of `ParseUint` is returned with value 0; after its range error the
value `maxVal` fails the cutoff check. -/
def ParseInt (a : Arch) (s : String) : Int × Option NumError :=
  if s = "" then (0, some (syntaxError "ParseInt" s))
  else
    let neg : Bool := decide (s.data.head? = some '-')
    let rest : List Char :=
      if s.data.head? = some '+' ∨ s.data.head? = some '-' then s.data.tail else s.data
    let r := ParseUint a (String.mk rest)
    let un := r.1
    if r.2.isSome ∧ r.2.map (fun e => e.Err) ≠ some .ErrRange then
      (0, r.2.map (fun e => { e with Func := "ParseInt", Num := s }))
    else
      let cutoff : Nat := 2 ^ (intSize a - 1)
      if !neg && decide (un ≥ cutoff) then
        (((cutoff - 1 : Nat) : Int), some (rangeError "ParseInt" s))
      else if neg && decide (un > cutoff) then
        (-(cutoff : Int), some (rangeError "ParseInt" s))
      else
        let n := wrapInt 64 (un : Int)
        (if neg then wrapInt 64 (-n) else n, none)

/-- The digit loop of the fast path of `Atoi`: `ch -= '0'; if ch > 9` rejects
every byte that is not a decimal digit; otherwise `n = n*10 + int(ch)` in `int`
arithmetic. The result is `none` on a syntax error. -/
def Atoi.loop (a : Arch) : List Char → Int → Option Int
  | [], n => some n
  | ch :: cs, n =>
    if !isDigit ch then none
    else Atoi.loop a cs (wrapInt (intSize a) (n * 10 + (digitVal ch : Int)))

/-- Go `Atoi(s)`: for a non-empty input shorter than 10 bytes (32-bit `int`) or 19
bytes (64-bit `int`) the fast path: a sign `s[0]` is dropped (nothing after it is
a syntax error), the digits are accumulated and the result negated for `-`.
Otherwise `ParseInt(s, 10, 0)`, with the error renamed and the value converted
to `int`. -/
def Atoi (a : Arch) (s : String) : Int × Option NumError :=
  let sLen := s.utf8ByteSize
  if (intSize a = 32 ∧ 0 < sLen ∧ sLen < 10) ∨ (intSize a = 64 ∧ 0 < sLen ∧ sLen < 19) then
    let signed : Bool := decide (s.data.head? = some '-' ∨ s.data.head? = some '+')
    let digits : List Char := if signed then s.data.tail else s.data
    if signed && decide (digits.length < 1) then (0, some (syntaxError "Atoi" s))
    else
      match Atoi.loop a digits 0 with
      | none => (0, some (syntaxError "Atoi" s))
      | some n => (if s.data.head? = some '-' then wrapInt (intSize a) (-n) else n, none)
  else
    let r := ParseInt a s
    (wrapInt (intSize a) r.1, r.2.map (fun e => { e with Func := "Atoi" }))

end strconv

/-- A Go `error` value as it reaches `NewError`. -/
inductive GoError where
  /-- the error `errors.New(text)` -/
  | New (text : String)
  /-- an error returned by `strconv` -/
  | Num (e : strconv.NumError)
  /-- an error returned by a collaborator outside these files, with its message -/
  | External (text : String)
  deriving DecidableEq, Repr

/-! ## `common/utils.go` -/

namespace common

/-- The context key of the path capabilities of the request. -/
abbrev PATH_CAPABILITIES : String := "pathCapabilities"
/-- The context key of the root flag of the credential. -/
abbrev IS_ROOT : String := "isRoot"

/-- The `CommonError` response object. An entry `(key, err)` of `Errors` stands
for the string `key: err.Error()`. -/
structure CommonError where
  Errors : List (String × GoError)
  deriving DecidableEq, Repr

/-- The function `NewError(key, err)`: the single message made of `key` and `err`. -/
def NewError (key : String) (err : GoError) : CommonError :=
  { Errors := [(key, err)] }

/-- The function `ParseInt(str, def)`: the value of `strconv.Atoi`, or `def` when it reports an
error. -/
def ParseInt (a : strconv.Arch) (str : String) (d : Int) : Int :=
  let r := strconv.Atoi a str
  if r.2 ≠ none then d else r.1

/-- The function `ParseBool(str, def)`: the value of `strconv.ParseBool`, or `def` when it
reports an error. -/
def ParseBool (str : String) (d : Bool) : Bool :=
  let r := strconv.ParseBool str
  if r.2 ≠ none then d else r.1

/-- The function `VerifyCreateAccess`: root passes; otherwise the `create` entry of the path
capabilities decides. -/
def VerifyCreateAccess (c : gin.Context) : Except gin.Panic Bool :=
  match c.MustGet IS_ROOT with
  | .error p => .error p
  | .ok v =>
    match v.assertBool with
    | .error p => .error p
    | .ok isRoot =>
      if isRoot then .ok true
      else
        match c.MustGet PATH_CAPABILITIES with
        | .error p => .error p
        | .ok w =>
          match w.assertCapabilities with
          | .error p => .error p
          | .ok capabilities => .ok (mapIndex capabilities "create")

/-- The function `VerifyListAccess`: root passes; otherwise the `list` entry of the path
capabilities decides. -/
def VerifyListAccess (c : gin.Context) : Except gin.Panic Bool :=
  match c.MustGet IS_ROOT with
  | .error p => .error p
  | .ok v =>
    match v.assertBool with
    | .error p => .error p
    | .ok isRoot =>
      if isRoot then .ok true
      else
        match c.MustGet PATH_CAPABILITIES with
        | .error p => .error p
        | .ok w =>
          match w.assertCapabilities with
          | .error p => .error p
          | .ok capabilities => .ok (mapIndex capabilities "list")

end common

/-! ## `policies/routers.go` -/

namespace policies

/-- The policy record. Its declaration is outside these files; the handlers use
the `ID` and `Name` fields, the remaining columns are kept as `Text`. -/
structure PolicyModel where
  ID : Nat := 0
  Name : String := ""
  Text : String := ""
  deriving DecidableEq, Repr

/-- The collaborators of the handlers, declared outside these files. An error is
its message. -/
structure Env where
  /-- the call `FindManyPolicies()`: the records and their count -/
  FindManyPolicies : Except String (List PolicyModel × Nat)
  /-- the call `FindOnePolicy(condition)` -/
  FindOnePolicy : PolicyModel → Except String PolicyModel
  /-- the call `NewPolicyModelValidatorFillWith(model)` followed by `Bind(c)`: the model
  held by the validator after binding the request -/
  Bind : gin.Context → PolicyModel → Except String PolicyModel
  /-- the call `model.Update(data)` -/
  Update : PolicyModel → PolicyModel → Option String
  /-- the call `SaveOne(&data)`: the record as left by the save -/
  SaveOne : PolicyModel → Except String PolicyModel
  /-- the call `DeletePolicyModel(condition)` -/
  DeletePolicyModel : PolicyModel → Option String

/-- A storage call made by a handler. -/
inductive Call where
  | FindManyPolicies
  | FindOnePolicy (condition : PolicyModel)
  | Update (model data : PolicyModel)
  | SaveOne (data : PolicyModel)
  | DeletePolicyModel (condition : PolicyModel)
  deriving DecidableEq, Repr

/-- The object handed to `c.JSON`. -/
inductive Body where
  /-- a `CommonError` -/
  | error (e : common.CommonError)
  /-- the generic response around `PoliciesSerializer` -/
  | policies (models : List PolicyModel)
  /-- the generic response around `PolicySerializer` -/
  | policy (model : PolicyModel)
  /-- the generic response around `NewStatusResponse(code, msg)` -/
  | status (code : Nat) (msg : String)
  deriving DecidableEq, Repr

/-- What a handler did: the response written with `c.JSON` and the storage calls
made before it, in order. -/
structure Handled where
  status : Nat
  body : Body
  calls : List Call
  deriving DecidableEq, Repr

/-- The handler `PolicyList`: the list-access check, then the `list` query, which must
parse as a boolean (else 500) and be true (else 405), then `FindManyPolicies`. -/
def PolicyList (env : Env) (c : gin.Context) : Except gin.Panic Handled :=
  match common.VerifyListAccess c with
  | .error p => .error p
  | .ok allowed =>
    if !allowed then
      .ok ⟨http.StatusForbidden, .error (common.NewError "auth" (.New "permission denied")), []⟩
    else
      match strconv.ParseBool (c.Query "list") with
      | (_, some err) =>
        .ok ⟨http.StatusInternalServerError, .error (common.NewError "policy" (.Num err)), []⟩
      | (list, none) =>
        if !list then
          .ok ⟨http.StatusMethodNotAllowed,
            .error (common.NewError "policy" (.New "method not allowed")), []⟩
        else
          match env.FindManyPolicies with
          | .error err =>
            .ok ⟨http.StatusInternalServerError, .error (common.NewError "database" (.External err)),
              [.FindManyPolicies]⟩
          | .ok (policyModels, _) =>
            .ok ⟨http.StatusOK, .policies policyModels, [.FindManyPolicies]⟩

/-- The handler `PolicyRetrieve`: `FindOnePolicy` for the name; 404 on an error. -/
def PolicyRetrieve (env : Env) (c : gin.Context) : Handled :=
  let name := c.Param "name"
  match env.FindOnePolicy { Name := name } with
  | .error _ =>
    ⟨http.StatusNotFound, .error (common.NewError "policy" (.New "Invalid policy name")),
      [.FindOnePolicy { Name := name }]⟩
  | .ok policyModel =>
    ⟨http.StatusOK, .policy policyModel, [.FindOnePolicy { Name := name }]⟩

/-- The handler `PolicyCreateOrUpdate`: the create-access check, the refusal of the
name `root`, then the lookup of the stored policy, the binding of the request
body, and `Update` of a stored policy (`ID != 0`) or `SaveOne` of a new one. -/
def PolicyCreateOrUpdate (env : Env) (c : gin.Context) : Except gin.Panic Handled :=
  match common.VerifyCreateAccess c with
  | .error p => .error p
  | .ok allowed =>
    if !allowed then
      .ok ⟨http.StatusForbidden, .error (common.NewError "auth" (.New "permission denied")), []⟩
    else
      let name := c.Param "name"
      if name = "root" then
        .ok ⟨http.StatusBadRequest,
          .error (common.NewError "policy" (.New "Root policy update is forbidden")), []⟩
      else
        let find : Call := .FindOnePolicy { Name := name }
        let policyModel : PolicyModel :=
          match env.FindOnePolicy { Name := name } with
          | .error _ => { Name := name }
          | .ok m => m
        match env.Bind c policyModel with
        | .error err =>
          .ok ⟨http.StatusUnprocessableEntity,
            .error (common.NewError "policy-validator" (.External err)), [find]⟩
        | .ok bound =>
          if policyModel.ID ≠ 0 then
            let data : PolicyModel := { bound with ID := policyModel.ID }
            match env.Update policyModel data with
            | some err =>
              .ok ⟨http.StatusUnprocessableEntity, .error (common.NewError "database" (.External err)),
                [find, .Update policyModel data]⟩
            | none => .ok ⟨http.StatusOK, .policy data, [find, .Update policyModel data]⟩
          else
            match env.SaveOne bound with
            | .error err =>
              .ok ⟨http.StatusUnprocessableEntity, .error (common.NewError "database" (.External err)),
                [find, .SaveOne bound]⟩
            | .ok saved => .ok ⟨http.StatusOK, .policy saved, [find, .SaveOne bound]⟩

/-- The handler `PolicyDelete`: the refusal of the names `root` and `default`, then
`DeletePolicyModel`; 404 on an error. -/
def PolicyDelete (env : Env) (c : gin.Context) : Handled :=
  let name := c.Param "name"
  if name = "root" ∨ name = "default" then
    ⟨http.StatusBadRequest,
      .error (common.NewError "policy"
        (.New "Deletion of the root and default policies are forbidden")),
      []⟩
  else
    match env.DeletePolicyModel { Name := name } with
    | some _ =>
      ⟨http.StatusNotFound, .error (common.NewError "policy" (.New "invalid policy name")),
        [.DeletePolicyModel { Name := name }]⟩
    | none =>
      ⟨http.StatusOK, .status http.StatusOK "ok", [.DeletePolicyModel { Name := name }]⟩

end policies

/-! ## Contexts and collaborators used as concrete inputs -/

namespace Fixture

/-- A request of a root credential: the middleware set `isRoot` and nothing else. -/
def rootCtx (name : String) (query : List (String × String)) : gin.Context :=
  { Keys := [("isRoot", .bool true)], Params := [("name", name)], QueryArgs := query, Body := "" }

/-- A request of a non-root credential with path capabilities `caps`. -/
def userCtx (caps : List (String × Bool)) (name : String) (query : List (String × String)) :
    gin.Context :=
  { Keys := [("isRoot", .bool false), ("pathCapabilities", .capabilities caps)],
    Params := [("name", name)], QueryArgs := query, Body := "" }

/-- A store holding the one policy `reader`; every write succeeds and every
request body binds. -/
def store : policies.Env :=
  { FindManyPolicies := .ok ([{ ID := 1, Name := "reader", Text := "" }], 1)
    FindOnePolicy := fun cond =>
      if cond.Name = "reader" then .ok { ID := 1, Name := "reader", Text := "" }
      else .error "record not found"
    Bind := fun c m => .ok { m with Text := c.Body }
    Update := fun _ _ => none
    SaveOne := fun m => .ok { m with ID := 2 }
    DeletePolicyModel := fun cond =>
      if cond.Name = "reader" then none else some "record not found" }

/-- A store whose every call fails. -/
def brokenStore : policies.Env :=
  { FindManyPolicies := .error "database is locked"
    FindOnePolicy := fun _ => .error "database is locked"
    Bind := fun _ m => .ok m
    Update := fun _ _ => some "database is locked"
    SaveOne := fun _ => .error "database is locked"
    DeletePolicyModel := fun _ => some "database is locked" }

end Fixture

/-! ## The literals of the parse helpers, as the specification words them -/

namespace Spec

/-- The number written by decimal digits `ds` after the digits already read as `n`. -/
def decimalFrom (n : Nat) (ds : List Char) : Nat :=
  ds.foldl (fun v c => 10 * v + strconv.digitVal c) n

/-- The number written by the decimal digits `ds`. -/
def decimalValue (ds : List Char) : Nat :=
  decimalFrom 0 ds

/-- One or more characters, each a decimal digit. -/
def isDecimal (ds : List Char) : Bool :=
  !ds.isEmpty && ds.all strconv.isDigit

/-- The integer denoted by a base-10 integer literal: an optional sign `+` or `-`
followed by one or more decimal digits. Any other string denotes nothing. -/
def intLiteral (s : String) : Option Int :=
  match s.data with
  | [] => none
  | c :: cs =>
    if c = '+' then (if isDecimal cs then some (decimalValue cs : Int) else none)
    else if c = '-' then (if isDecimal cs then some (-(decimalValue cs : Int)) else none)
    else if isDecimal (c :: cs) then some (decimalValue (c :: cs) : Int) else none

/-- The integer denoted by a valid literal for `Atoi`: a base-10 integer literal
whose value is representable in `int`. -/
def atoiLiteral (a : strconv.Arch) (s : String) : Option Int :=
  match intLiteral s with
  | none => none
  | some v =>
    if -(2 ^ (strconv.intSize a - 1) : Int) ≤ v ∧ v < (2 ^ (strconv.intSize a - 1) : Int) then
      some v
    else none

/-- The boolean denoted by one of the twelve literals of `ParseBool`. -/
def boolLiteral (s : String) : Option Bool :=
  if s ∈ ["1", "t", "T", "TRUE", "true", "True"] then some true
  else if s ∈ ["0", "f", "F", "FALSE", "false", "False"] then some false
  else none

/-- The sign of a literal is `-`. -/
def isNegative (s : String) : Bool :=
  decide (s.data.head? = some '-')

/-- The characters of a literal after its optional sign. -/
def magnitude (s : String) : List Char :=
  if s.data.head? = some '+' ∨ s.data.head? = some '-' then s.data.tail else s.data

end Spec

/-! ## Responses and their kinds -/

namespace policies

/-- The response every refused request gets. -/
def forbidden : Handled :=
  ⟨http.StatusForbidden, .error (common.NewError "auth" (.New "permission denied")), []⟩

end policies

/-- The error kinds of the specification that a policy response can be told to
carry, read off the HTTP status: 200 is success, 403 `Forbidden`, 404 `NotFound`,
400 and 422 `ValidationError`; every other status is another kind. -/
inductive Kind where
  | Success
  | Forbidden
  | NotFound
  | ValidationError
  | OtherError
  deriving DecidableEq, Repr

/-- The kind of a response. -/
def Kind.ofStatus (status : Nat) : Kind :=
  if status = http.StatusOK then .Success
  else if status = http.StatusForbidden then .Forbidden
  else if status = http.StatusNotFound then .NotFound
  else if status = http.StatusBadRequest ∨ status = http.StatusUnprocessableEntity then
    .ValidationError
  else .OtherError

/-! ## Access checks -/

theorem VerifyCreateAccess_root (c : gin.Context)
    (h : c.Get common.IS_ROOT = some (.bool true)) :
    common.VerifyCreateAccess c = .ok true := by
  simp [common.VerifyCreateAccess, gin.Context.MustGet, h, gin.Value.assertBool]

theorem VerifyListAccess_root (c : gin.Context)
    (h : c.Get common.IS_ROOT = some (.bool true)) :
    common.VerifyListAccess c = .ok true := by
  simp [common.VerifyListAccess, gin.Context.MustGet, h, gin.Value.assertBool]

theorem VerifyCreateAccess_user (c : gin.Context) (m : List (String × Bool))
    (hroot : c.Get common.IS_ROOT = some (.bool false))
    (hcaps : c.Get common.PATH_CAPABILITIES = some (.capabilities m)) :
    common.VerifyCreateAccess c = .ok (mapIndex m "create") := by
  simp [common.VerifyCreateAccess, gin.Context.MustGet, hroot, hcaps, gin.Value.assertBool,
    gin.Value.assertCapabilities]

theorem VerifyListAccess_user (c : gin.Context) (m : List (String × Bool))
    (hroot : c.Get common.IS_ROOT = some (.bool false))
    (hcaps : c.Get common.PATH_CAPABILITIES = some (.capabilities m)) :
    common.VerifyListAccess c = .ok (mapIndex m "list") := by
  simp [common.VerifyListAccess, gin.Context.MustGet, hroot, hcaps, gin.Value.assertBool,
    gin.Value.assertCapabilities]

theorem mapIndex_eq_false (m : List (String × Bool)) (key : String) :
    mapIndex m key = false ↔ m.lookup key = none ∨ m.lookup key = some false := by
  unfold mapIndex
  cases h : m.lookup key with
  | none => simp
  | some b => cases b <;> simp

/-- C1: for a request whose `isRoot` flag is true, `VerifyCreateAccess` and
`VerifyListAccess` both return true, and so they do on every other context whose
flag is true, whatever its `pathCapabilities` entry holds and whether it is set. -/
theorem C1_root_bypass (c : gin.Context) (h : c.Get common.IS_ROOT = some (.bool true)) :
    common.VerifyCreateAccess c = .ok true ∧ common.VerifyListAccess c = .ok true ∧
    ∀ c2 : gin.Context, c2.Get common.IS_ROOT = some (.bool true) →
      common.VerifyCreateAccess c2 = common.VerifyCreateAccess c ∧
      common.VerifyListAccess c2 = common.VerifyListAccess c := by
  refine ⟨VerifyCreateAccess_root c h, VerifyListAccess_root c h, ?_⟩
  intro c2 h2
  rw [VerifyCreateAccess_root c h, VerifyListAccess_root c h]
  exact ⟨VerifyCreateAccess_root c2 h2, VerifyListAccess_root c2 h2⟩

/-- Witness of C1: a root context without any `pathCapabilities` entry, compared
with root contexts whose map is empty or maps `create` and `list` to false. -/
theorem C1_root_bypass_witness :
    common.VerifyCreateAccess (Fixture.rootCtx "p" []) = .ok true ∧
    common.VerifyListAccess (Fixture.rootCtx "p" []) = .ok true ∧
    common.VerifyCreateAccess
      ⟨[("isRoot", .bool true), ("pathCapabilities", .capabilities [])], [], [], ""⟩
      = .ok true ∧
    common.VerifyListAccess
      ⟨[("pathCapabilities", .capabilities [("create", false), ("list", false)]),
        ("isRoot", .bool true)], [], [], ""⟩ = .ok true := by
  have h := C1_root_bypass (Fixture.rootCtx "p" []) (by decide)
  refine ⟨h.1, h.2.1, ?_, ?_⟩
  · rw [(h.2.2 _ (by decide)).1]; exact h.1
  · rw [(h.2.2 _ (by decide)).2]; exact h.2.1

/-! ## Policy handlers -/

namespace policies

theorem PolicyCreateOrUpdate_denied (env : Env) (c : gin.Context)
    (h : common.VerifyCreateAccess c = .ok false) :
    PolicyCreateOrUpdate env c = .ok forbidden := by
  simp [PolicyCreateOrUpdate, h, forbidden]

theorem PolicyList_denied (env : Env) (c : gin.Context)
    (h : common.VerifyListAccess c = .ok false) :
    PolicyList env c = .ok forbidden := by
  simp [PolicyList, h, forbidden]

/-- With create access, `PolicyCreateOrUpdate` answers 400 without any storage
call for the name `root`, and otherwise looks the policy up first and answers 200
or 422. -/
theorem PolicyCreateOrUpdate_allowed (env : Env) (c : gin.Context)
    (h : common.VerifyCreateAccess c = .ok true) :
    (c.Param "name" = "root" →
      PolicyCreateOrUpdate env c = .ok ⟨http.StatusBadRequest,
        .error (common.NewError "policy" (.New "Root policy update is forbidden")), []⟩) ∧
    (c.Param "name" ≠ "root" →
      ∃ r, PolicyCreateOrUpdate env c = .ok r ∧
        r.calls.head? = some (.FindOnePolicy { Name := c.Param "name" }) ∧
        (r.status = http.StatusOK ∨ r.status = http.StatusUnprocessableEntity)) := by
  constructor
  · intro hn
    simp [PolicyCreateOrUpdate, h, hn]
  · intro hn
    simp only [PolicyCreateOrUpdate, h, hn]
    simp only [Bool.not_true, Bool.false_eq_true, if_false]
    split
    · exact ⟨_, rfl, rfl, Or.inr rfl⟩
    · split
      · split
        · exact ⟨_, rfl, rfl, Or.inr rfl⟩
        · exact ⟨_, rfl, rfl, Or.inl rfl⟩
      · split
        · exact ⟨_, rfl, rfl, Or.inr rfl⟩
        · exact ⟨_, rfl, rfl, Or.inl rfl⟩

/-- With list access, `PolicyList` answers 200, 405 or 500. -/
theorem PolicyList_allowed (env : Env) (c : gin.Context)
    (h : common.VerifyListAccess c = .ok true) :
    ∃ r, PolicyList env c = .ok r ∧
      (r.status = http.StatusOK ∨ r.status = http.StatusMethodNotAllowed ∨
        r.status = http.StatusInternalServerError) := by
  simp only [PolicyList, h]
  simp only [Bool.not_true, Bool.false_eq_true, if_false]
  split
  · exact ⟨_, rfl, Or.inr (Or.inr rfl)⟩
  · split
    · exact ⟨_, rfl, Or.inr (Or.inl rfl)⟩
    · split
      · exact ⟨_, rfl, Or.inr (Or.inr rfl)⟩
      · exact ⟨_, rfl, Or.inl rfl⟩

theorem PolicyCreateOrUpdate_allowed_status (env : Env) (c : gin.Context)
    (h : common.VerifyCreateAccess c = .ok true) :
    ∃ r, PolicyCreateOrUpdate env c = .ok r ∧
      (r.status = http.StatusOK ∨ r.status = http.StatusBadRequest ∨
        r.status = http.StatusUnprocessableEntity) := by
  by_cases hn : c.Param "name" = "root"
  · exact ⟨_, (PolicyCreateOrUpdate_allowed env c h).1 hn, Or.inr (Or.inl rfl)⟩
  · obtain ⟨r, hr, -, hs⟩ := (PolicyCreateOrUpdate_allowed env c h).2 hn
    exact ⟨r, hr, hs.elim Or.inl (fun h2 => Or.inr (Or.inr h2))⟩

theorem PolicyRetrieve_status (env : Env) (c : gin.Context) :
    (PolicyRetrieve env c).status = http.StatusOK ∨
      (PolicyRetrieve env c).status = http.StatusNotFound := by
  simp only [PolicyRetrieve]
  split
  · exact Or.inr rfl
  · exact Or.inl rfl

theorem PolicyDelete_protected (env : Env) (c : gin.Context)
    (h : c.Param "name" = "root" ∨ c.Param "name" = "default") :
    PolicyDelete env c = ⟨http.StatusBadRequest,
      .error (common.NewError "policy"
        (.New "Deletion of the root and default policies are forbidden")), []⟩ := by
  simp [PolicyDelete, h]

theorem PolicyDelete_other (env : Env) (c : gin.Context)
    (h1 : c.Param "name" ≠ "root") (h2 : c.Param "name" ≠ "default") :
    (PolicyDelete env c).calls = [.DeletePolicyModel { Name := c.Param "name" }] ∧
    (env.DeletePolicyModel { Name := c.Param "name" } = none →
      (PolicyDelete env c).status = http.StatusOK) ∧
    (∀ err, env.DeletePolicyModel { Name := c.Param "name" } = some err →
      (PolicyDelete env c).status = http.StatusNotFound) := by
  simp only [PolicyDelete, h1, h2, or_self, if_false]
  cases hd : env.DeletePolicyModel { Name := c.Param "name" } <;> simp

theorem PolicyDelete_status (env : Env) (c : gin.Context) :
    (PolicyDelete env c).status = http.StatusOK ∨
      (PolicyDelete env c).status = http.StatusBadRequest ∨
      (PolicyDelete env c).status = http.StatusNotFound := by
  by_cases h : c.Param "name" = "root" ∨ c.Param "name" = "default"
  · rw [PolicyDelete_protected env c h]; exact Or.inr (Or.inl rfl)
  · simp only [PolicyDelete, h, if_false]
    split
    · exact Or.inr (Or.inr rfl)
    · exact Or.inl rfl

end policies

/-- C2: for a non-root request with capability map `m`, `PolicyCreateOrUpdate`
answers 403 exactly when `m` has no `create` entry or maps it to false, and
`PolicyList` answers 403 exactly when `m` has no `list` entry or maps it to false;
the 403 response is `auth: permission denied` and comes with no storage call. -/
theorem C2_forbidden_iff_capability_missing (env : policies.Env) (c : gin.Context)
    (m : List (String × Bool))
    (hroot : c.Get common.IS_ROOT = some (.bool false))
    (hcaps : c.Get common.PATH_CAPABILITIES = some (.capabilities m)) :
    (∃ r, policies.PolicyCreateOrUpdate env c = .ok r ∧
      (r.status = http.StatusForbidden ↔
        (m.lookup "create" = none ∨ m.lookup "create" = some false)) ∧
      (r.status = http.StatusForbidden →
        r.body = .error (common.NewError "auth" (.New "permission denied")) ∧ r.calls = [])) ∧
    (∃ r, policies.PolicyList env c = .ok r ∧
      (r.status = http.StatusForbidden ↔
        (m.lookup "list" = none ∨ m.lookup "list" = some false)) ∧
      (r.status = http.StatusForbidden →
        r.body = .error (common.NewError "auth" (.New "permission denied")) ∧ r.calls = [])) := by
  have hc := VerifyCreateAccess_user c m hroot hcaps
  have hl := VerifyListAccess_user c m hroot hcaps
  constructor
  · cases hb : mapIndex m "create" with
    | false =>
      rw [hb] at hc
      refine ⟨_, policies.PolicyCreateOrUpdate_denied env c hc, ?_, fun _ => ⟨rfl, rfl⟩⟩
      exact ⟨fun _ => (mapIndex_eq_false m "create").1 hb, fun _ => rfl⟩
    | true =>
      rw [hb] at hc
      obtain ⟨r, hr, hs⟩ := policies.PolicyCreateOrUpdate_allowed_status env c hc
      have hne : r.status ≠ http.StatusForbidden := by
        rcases hs with hs | hs | hs <;> rw [hs] <;> decide
      refine ⟨r, hr, ⟨fun h => absurd h hne, fun h => ?_⟩, fun h => absurd h hne⟩
      rw [(mapIndex_eq_false m "create").2 h] at hb
      exact absurd hb (by decide)
  · cases hb : mapIndex m "list" with
    | false =>
      rw [hb] at hl
      refine ⟨_, policies.PolicyList_denied env c hl, ?_, fun _ => ⟨rfl, rfl⟩⟩
      exact ⟨fun _ => (mapIndex_eq_false m "list").1 hb, fun _ => rfl⟩
    | true =>
      rw [hb] at hl
      obtain ⟨r, hr, hs⟩ := policies.PolicyList_allowed env c hl
      have hne : r.status ≠ http.StatusForbidden := by
        rcases hs with hs | hs | hs <;> rw [hs] <;> decide
      refine ⟨r, hr, ⟨fun h => absurd h hne, fun h => ?_⟩, fun h => absurd h hne⟩
      rw [(mapIndex_eq_false m "list").2 h] at hb
      exact absurd hb (by decide)

/-- Witness of C2: a non-root request whose map grants `list` only. -/
theorem C2_forbidden_iff_capability_missing_witness :
    (∃ r, policies.PolicyCreateOrUpdate Fixture.store
        (Fixture.userCtx [("list", true)] "dev" [("list", "true")]) = .ok r ∧
      (r.status = http.StatusForbidden ↔
        (List.lookup "create" [("list", true)] = none ∨
          List.lookup "create" [("list", true)] = some false)) ∧
      (r.status = http.StatusForbidden →
        r.body = .error (common.NewError "auth" (.New "permission denied")) ∧ r.calls = [])) ∧
    (∃ r, policies.PolicyList Fixture.store
        (Fixture.userCtx [("list", true)] "dev" [("list", "true")]) = .ok r ∧
      (r.status = http.StatusForbidden ↔
        (List.lookup "list" [("list", true)] = none ∨
          List.lookup "list" [("list", true)] = some false)) ∧
      (r.status = http.StatusForbidden →
        r.body = .error (common.NewError "auth" (.New "permission denied")) ∧ r.calls = [])) :=
  C2_forbidden_iff_capability_missing Fixture.store
    (Fixture.userCtx [("list", true)] "dev" [("list", "true")]) [("list", true)]
    (by decide) (by decide)

/-- C3, at the failing input: a non-root request with an empty capability map
deletes the policy `reader`; `PolicyDelete` calls `DeletePolicyModel` and answers
200, not 403. -/
theorem C3_delete_without_capability :
    common.VerifyCreateAccess (Fixture.userCtx [] "reader" []) = .ok false ∧
    common.VerifyListAccess (Fixture.userCtx [] "reader" []) = .ok false ∧
    policies.PolicyDelete Fixture.store (Fixture.userCtx [] "reader" []) =
      ⟨http.StatusOK, .status http.StatusOK "ok",
        [.DeletePolicyModel { Name := "reader" }]⟩ := by
  decide

/-- C4 fails as stated: a root request to `PolicyList` with `list=false` is
answered 405, and one with `list=true` on a failing store is answered 500 with a
`database` error; neither is a success, `NotFound` or `ValidationError`. -/
theorem C4_root_other_error_kinds :
    (∃ r, policies.PolicyList Fixture.store (Fixture.rootCtx "" [("list", "false")]) = .ok r ∧
      r.status = http.StatusMethodNotAllowed ∧ r.calls = [] ∧
      Kind.ofStatus r.status = .OtherError) ∧
    (∃ r, policies.PolicyList Fixture.brokenStore (Fixture.rootCtx "" [("list", "true")]) = .ok r ∧
      r.status = http.StatusInternalServerError ∧
      r.body = .error (common.NewError "database" (.External "database is locked")) ∧
      Kind.ofStatus r.status = .OtherError) := by
  constructor
  · exact ⟨_, rfl, by decide, by decide, by decide⟩
  · exact ⟨_, rfl, by decide, by decide, by decide⟩

/-- C4, amended: for a root request no policy operation answers 403;
`PolicyList` answers 200, 405 or 500, `PolicyRetrieve` 200 or 404,
`PolicyCreateOrUpdate` 200, 400 or 422, and `PolicyDelete` 200, 400 or 404, for
every name, query string, request body and behaviour of the collaborators. -/
theorem C4_root_never_forbidden (env : policies.Env) (c : gin.Context)
    (h : c.Get common.IS_ROOT = some (.bool true)) :
    (∃ r, policies.PolicyList env c = .ok r ∧ r.status ≠ http.StatusForbidden ∧
      (r.status = http.StatusOK ∨ r.status = http.StatusMethodNotAllowed ∨
        r.status = http.StatusInternalServerError)) ∧
    ((policies.PolicyRetrieve env c).status ≠ http.StatusForbidden ∧
      ((policies.PolicyRetrieve env c).status = http.StatusOK ∨
        (policies.PolicyRetrieve env c).status = http.StatusNotFound)) ∧
    (∃ r, policies.PolicyCreateOrUpdate env c = .ok r ∧ r.status ≠ http.StatusForbidden ∧
      (r.status = http.StatusOK ∨ r.status = http.StatusBadRequest ∨
        r.status = http.StatusUnprocessableEntity)) ∧
    ((policies.PolicyDelete env c).status ≠ http.StatusForbidden ∧
      ((policies.PolicyDelete env c).status = http.StatusOK ∨
        (policies.PolicyDelete env c).status = http.StatusBadRequest ∨
        (policies.PolicyDelete env c).status = http.StatusNotFound)) := by
  refine ⟨?_, ?_, ?_, ?_⟩
  · obtain ⟨r, hr, hs⟩ := policies.PolicyList_allowed env c (VerifyListAccess_root c h)
    refine ⟨r, hr, ?_, hs⟩
    rcases hs with hs | hs | hs <;> rw [hs] <;> decide
  · have hs := policies.PolicyRetrieve_status env c
    refine ⟨?_, hs⟩
    rcases hs with hs | hs <;> rw [hs] <;> decide
  · obtain ⟨r, hr, hs⟩ :=
      policies.PolicyCreateOrUpdate_allowed_status env c (VerifyCreateAccess_root c h)
    refine ⟨r, hr, ?_, hs⟩
    rcases hs with hs | hs | hs <;> rw [hs] <;> decide
  · have hs := policies.PolicyDelete_status env c
    refine ⟨?_, hs⟩
    rcases hs with hs | hs | hs <;> rw [hs] <;> decide

/-- Witness of C4 (amended): a root request for the policy `reader` with
`list=true`. -/
theorem C4_root_never_forbidden_witness :
    (∃ r, policies.PolicyList Fixture.store (Fixture.rootCtx "reader" [("list", "true")]) = .ok r ∧
      r.status ≠ http.StatusForbidden ∧
      (r.status = http.StatusOK ∨ r.status = http.StatusMethodNotAllowed ∨
        r.status = http.StatusInternalServerError)) ∧
    (policies.PolicyRetrieve Fixture.store
      (Fixture.rootCtx "reader" [("list", "true")])).status = http.StatusOK ∧
    (policies.PolicyDelete Fixture.store
      (Fixture.rootCtx "reader" [("list", "true")])).status ≠ http.StatusForbidden :=
  have h := C4_root_never_forbidden Fixture.store
    (Fixture.rootCtx "reader" [("list", "true")]) (by decide)
  ⟨h.1, by decide, h.2.2.2.1⟩

/-- C5 fails as stated: a non-root request whose capability map holds `deny`
next to `create` and `list` passes both checks, and `PolicyList` answers 200. -/
theorem C5_deny_does_not_override :
    common.VerifyCreateAccess
      (Fixture.userCtx [("deny", true), ("create", true), ("list", true)] "dev"
        [("list", "true")]) = .ok true ∧
    common.VerifyListAccess
      (Fixture.userCtx [("deny", true), ("create", true), ("list", true)] "dev"
        [("list", "true")]) = .ok true ∧
    (policies.PolicyList Fixture.store
      (Fixture.userCtx [("deny", true), ("create", true), ("list", true)] "dev"
        [("list", "true")])).map (fun r => r.status) = .ok http.StatusOK := by
  decide

/-- C5, amended: for a non-root request whose capability map includes `deny`,
`VerifyCreateAccess` returns the `create` entry of the map and `VerifyListAccess`
its `list` entry, so each check fails exactly when that entry is absent or false. -/
theorem C5_checks_read_own_entry (c : gin.Context) (m : List (String × Bool))
    (hroot : c.Get common.IS_ROOT = some (.bool false))
    (hcaps : c.Get common.PATH_CAPABILITIES = some (.capabilities m))
    (_hdeny : mapIndex m "deny" = true) :
    common.VerifyCreateAccess c = .ok (mapIndex m "create") ∧
    common.VerifyListAccess c = .ok (mapIndex m "list") ∧
    (common.VerifyCreateAccess c = .ok false ↔
      (m.lookup "create" = none ∨ m.lookup "create" = some false)) ∧
    (common.VerifyListAccess c = .ok false ↔
      (m.lookup "list" = none ∨ m.lookup "list" = some false)) := by
  have hc := VerifyCreateAccess_user c m hroot hcaps
  have hl := VerifyListAccess_user c m hroot hcaps
  refine ⟨hc, hl, ?_, ?_⟩
  · rw [hc, ← mapIndex_eq_false]
    constructor
    · intro h; injection h
    · intro h; rw [h]
  · rw [hl, ← mapIndex_eq_false]
    constructor
    · intro h; injection h
    · intro h; rw [h]

/-- Witness of C5 (amended): a map with `deny` and `list`, without `create`. -/
theorem C5_checks_read_own_entry_witness :
    common.VerifyCreateAccess (Fixture.userCtx [("deny", true), ("list", true)] "dev" []) =
      .ok false ∧
    common.VerifyListAccess (Fixture.userCtx [("deny", true), ("list", true)] "dev" []) =
      .ok true :=
  have h := C5_checks_read_own_entry
    (Fixture.userCtx [("deny", true), ("list", true)] "dev" [])
    [("deny", true), ("list", true)] (by decide) (by decide) (by decide)
  ⟨h.1, h.2.1⟩

/-- C6: for a request that passes the create-access check, `PolicyCreateOrUpdate`
with the name `root` answers 400 and makes no storage call; with any other name it
goes on to `FindOnePolicy` for that name and answers 200 or 422, not 400. -/
theorem C6_root_policy_not_writable (env : policies.Env) (c : gin.Context)
    (h : common.VerifyCreateAccess c = .ok true) :
    (c.Param "name" = "root" →
      ∃ r, policies.PolicyCreateOrUpdate env c = .ok r ∧
        r.status = http.StatusBadRequest ∧ r.calls = []) ∧
    (c.Param "name" ≠ "root" →
      ∃ r, policies.PolicyCreateOrUpdate env c = .ok r ∧
        r.calls.head? = some (.FindOnePolicy { Name := c.Param "name" }) ∧
        r.status ≠ http.StatusBadRequest ∧
        (r.status = http.StatusOK ∨ r.status = http.StatusUnprocessableEntity)) := by
  constructor
  · intro hn
    exact ⟨_, (policies.PolicyCreateOrUpdate_allowed env c h).1 hn, rfl, rfl⟩
  · intro hn
    obtain ⟨r, hr, hcalls, hs⟩ := (policies.PolicyCreateOrUpdate_allowed env c h).2 hn
    refine ⟨r, hr, hcalls, ?_, hs⟩
    rcases hs with hs | hs <;> rw [hs] <;> decide

/-- Witness of C6: a root request and a request with the `create` capability,
both for the name `root`. -/
theorem C6_root_policy_not_writable_witness :
    (∃ r, policies.PolicyCreateOrUpdate Fixture.store (Fixture.rootCtx "root" []) = .ok r ∧
      r.status = http.StatusBadRequest ∧ r.calls = []) ∧
    (∃ r, policies.PolicyCreateOrUpdate Fixture.store
        (Fixture.userCtx [("create", true)] "root" []) = .ok r ∧
      r.status = http.StatusBadRequest ∧ r.calls = []) :=
  ⟨(C6_root_policy_not_writable Fixture.store (Fixture.rootCtx "root" []) (by decide)).1
      (by decide),
    (C6_root_policy_not_writable Fixture.store (Fixture.userCtx [("create", true)] "root" [])
      (by decide)).1 (by decide)⟩

/-- C7: for every request, `PolicyDelete` with the name `root` or `default`
answers 400 and makes no storage call; with any other name it calls
`DeletePolicyModel` once, for that name, and answers 200 when the call succeeds
and 404 when it returns an error. -/
theorem C7_delete_protected_names (env : policies.Env) (c : gin.Context) :
    ((c.Param "name" = "root" ∨ c.Param "name" = "default") →
      (policies.PolicyDelete env c).status = http.StatusBadRequest ∧
      (policies.PolicyDelete env c).calls = []) ∧
    ((c.Param "name" ≠ "root" ∧ c.Param "name" ≠ "default") →
      (policies.PolicyDelete env c).calls =
        [.DeletePolicyModel { Name := c.Param "name" }] ∧
      (env.DeletePolicyModel { Name := c.Param "name" } = none →
        (policies.PolicyDelete env c).status = http.StatusOK) ∧
      (∀ err, env.DeletePolicyModel { Name := c.Param "name" } = some err →
        (policies.PolicyDelete env c).status = http.StatusNotFound)) := by
  constructor
  · intro h
    rw [policies.PolicyDelete_protected env c h]
    exact ⟨rfl, rfl⟩
  · intro h
    exact policies.PolicyDelete_other env c h.1 h.2

/-- Witness of C7: deleting `default` is refused, deleting the stored policy
`reader` succeeds and deleting the unknown policy `ghost` is answered 404. -/
theorem C7_delete_protected_names_witness :
    (policies.PolicyDelete Fixture.store (Fixture.userCtx [] "default" [])).status =
      http.StatusBadRequest ∧
    (policies.PolicyDelete Fixture.store (Fixture.userCtx [] "default" [])).calls = [] ∧
    (policies.PolicyDelete Fixture.store (Fixture.rootCtx "reader" [])).status =
      http.StatusOK ∧
    (policies.PolicyDelete Fixture.store (Fixture.rootCtx "ghost" [])).status =
      http.StatusNotFound :=
  ⟨((C7_delete_protected_names Fixture.store (Fixture.userCtx [] "default" [])).1
      (by decide)).1,
    ((C7_delete_protected_names Fixture.store (Fixture.userCtx [] "default" [])).1
      (by decide)).2,
    ((C7_delete_protected_names Fixture.store (Fixture.rootCtx "reader" [])).2
      (by decide)).2.1 (by decide),
    ((C7_delete_protected_names Fixture.store (Fixture.rootCtx "ghost" [])).2
      (by decide)).2.2 "record not found" (by decide)⟩

/-! ## The parse helpers -/

namespace strconv

theorem digitVal_le_nine (c : Char) (h : isDigit c = true) : digitVal c ≤ 9 := by
  simp only [isDigit, decide_eq_true_eq] at h
  have h0 : '0'.toNat = 48 := rfl
  have h9 : '9'.toNat = 57 := rfl
  simp only [digitVal]
  omega

theorem decimalFrom_cons (n : Nat) (c : Char) (cs : List Char) :
    Spec.decimalFrom n (c :: cs) = Spec.decimalFrom (10 * n + digitVal c) cs := rfl

theorem le_decimalFrom (cs : List Char) (n : Nat) : n ≤ Spec.decimalFrom n cs := by
  induction cs generalizing n with
  | nil => exact Nat.le_refl n
  | cons c cs ih =>
    rw [decimalFrom_cons]
    exact Nat.le_trans (by omega) (ih _)

theorem decimalFrom_lt (cs : List Char) (n : Nat) (h : cs.all isDigit = true) :
    Spec.decimalFrom n cs < (n + 1) * 10 ^ cs.length := by
  induction cs generalizing n with
  | nil => simp [Spec.decimalFrom]
  | cons c cs ih =>
    rw [List.all_cons, Bool.and_eq_true] at h
    rw [decimalFrom_cons]
    have hd := digitVal_le_nine c h.1
    have h1 := ih (10 * n + digitVal c) h.2
    have h2 : (10 * n + digitVal c + 1) * 10 ^ cs.length ≤ (n + 1) * 10 ^ (c :: cs).length := by
      rw [List.length_cons, pow_succ]
      have : 10 * n + digitVal c + 1 ≤ (n + 1) * 10 := by omega
      calc (10 * n + digitVal c + 1) * 10 ^ cs.length
          ≤ ((n + 1) * 10) * 10 ^ cs.length := Nat.mul_le_mul_right _ this
        _ = (n + 1) * (10 ^ cs.length * 10) := by ring
    omega

/-- The digit loop of `ParseUint` succeeds exactly on digit strings whose value
does not exceed `maxVal`, and then returns that value; a range error comes with
the value `maxVal`. -/
theorem ParseUint_loop_spec (maxVal : Nat) (s0 : String) (hmax : maxVal < 2 ^ 64)
    (cs : List Char) (n : Nat) (hn : n ≤ maxVal) :
    (cs.all isDigit = true ∧ Spec.decimalFrom n cs ≤ maxVal ∧
      ParseUint.loop maxVal s0 cs n = (Spec.decimalFrom n cs, none)) ∨
    (¬ (cs.all isDigit = true ∧ Spec.decimalFrom n cs ≤ maxVal) ∧
      (ParseUint.loop maxVal s0 cs n = (0, some (syntaxError "ParseUint" s0)) ∨
        ParseUint.loop maxVal s0 cs n = (maxVal, some (rangeError "ParseUint" s0)))) := by
  have h64 : (2 : Nat) ^ 64 = 18446744073709551616 := by norm_num
  induction cs generalizing n with
  | nil => left; exact ⟨rfl, hn, rfl⟩
  | cons c cs ih =>
    rw [ParseUint.loop]
    by_cases hd : isDigit c = true
    · have hv := digitVal_le_nine c hd
      simp only [hd, Bool.not_true, Bool.false_eq_true, if_false, List.all_cons, Bool.true_and]
      have hmono := le_decimalFrom cs (10 * n + digitVal c)
      rw [decimalFrom_cons]
      by_cases hcut : n ≥ maxUint64 / 10 + 1
      · rw [if_pos hcut]
        right
        refine ⟨?_, Or.inr rfl⟩
        rintro ⟨-, hle⟩
        have : maxUint64 / 10 + 1 = 1844674407370955162 := by norm_num [maxUint64]
        omega
      · rw [if_neg hcut]
        have hc : maxUint64 / 10 + 1 = 1844674407370955162 := by norm_num [maxUint64]
        have hm : n * 10 % 2 ^ 64 = n * 10 := Nat.mod_eq_of_lt (by omega)
        simp only [hm]
        by_cases hov : (n * 10 + digitVal c) % 2 ^ 64 < n * 10 ∨
            (n * 10 + digitVal c) % 2 ^ 64 > maxVal
        · rw [if_pos hov]
          right
          refine ⟨?_, Or.inr rfl⟩
          rintro ⟨-, hle⟩
          rw [h64] at hov hmax
          omega
        · rw [if_neg hov]
          have hn1 : (n * 10 + digitVal c) % 2 ^ 64 = 10 * n + digitVal c := by
            rw [h64] at hov ⊢
            omega
          rw [hn1]
          have hle : 10 * n + digitVal c ≤ maxVal := by
            rw [hn1] at hov
            omega
          exact ih _ hle
    · right
      simp only [Bool.not_eq_true] at hd
      simp [hd]


theorem string_eq_empty_iff (s : String) : s = "" ↔ s.data = [] := by
  cases s with
  | mk data =>
    constructor
    · intro h; rw [h]
    · intro h; simp only at h; rw [h]

theorem intSize_cases (a : Arch) : intSize a = 32 ∨ intSize a = 64 := by
  cases a
  · exact Or.inl rfl
  · exact Or.inr rfl

/-- Go `ParseUint` accepts exactly the non-empty digit strings whose value fits in
`IntSize` bits. -/
theorem ParseUint_spec (a : Arch) (cs : List Char) :
    (Spec.isDecimal cs = true ∧ Spec.decimalValue cs ≤ 2 ^ intSize a - 1 ∧
      ParseUint a (String.mk cs) = (Spec.decimalValue cs, none)) ∨
    (¬ (Spec.isDecimal cs = true ∧ Spec.decimalValue cs ≤ 2 ^ intSize a - 1) ∧
      (ParseUint a (String.mk cs) = (0, some (syntaxError "ParseUint" (String.mk cs))) ∨
        ParseUint a (String.mk cs) =
          (2 ^ intSize a - 1, some (rangeError "ParseUint" (String.mk cs))))) := by
  unfold ParseUint
  by_cases he : cs = []
  · subst he
    right
    refine ⟨?_, Or.inl ?_⟩
    · simp [Spec.isDecimal]
    · rw [if_pos ((string_eq_empty_iff _).2 rfl)]
  · have hne : String.mk cs ≠ "" := fun h => he ((string_eq_empty_iff _).1 h)
    rw [if_neg hne]
    have hmax : 2 ^ intSize a - 1 < 2 ^ 64 := by
      rcases intSize_cases a with h | h <;> rw [h] <;> norm_num
    have hdec : Spec.isDecimal cs = cs.all isDigit := by
      cases cs with
      | nil => exact absurd rfl he
      | cons c cs => simp [Spec.isDecimal]
    rw [hdec]
    exact ParseUint_loop_spec (2 ^ intSize a - 1) (String.mk cs) hmax cs 0 (Nat.zero_le _)


theorem intLiteral_eq (s : String) :
    Spec.intLiteral s =
      if Spec.isDecimal (Spec.magnitude s) = true then
        some (if Spec.isNegative s = true then -(Spec.decimalValue (Spec.magnitude s) : Int)
          else (Spec.decimalValue (Spec.magnitude s) : Int))
      else none := by
  cases s with
  | mk data =>
    cases data with
    | nil => simp [Spec.intLiteral, Spec.magnitude, Spec.isDecimal]
    | cons c cs =>
      simp only [Spec.intLiteral, Spec.magnitude, Spec.isNegative, List.head?_cons,
        Option.some.injEq, List.tail_cons]
      by_cases hp : c = '+'
      · subst hp
        simp
      · by_cases hm : c = '-'
        · subst hm
          simp
        · simp [hp, hm]


theorem atoiLiteral_eq (a : Arch) (s : String) :
    Spec.atoiLiteral a s =
      if Spec.isDecimal (Spec.magnitude s) = true ∧
          (if Spec.isNegative s = true then
            Spec.decimalValue (Spec.magnitude s) ≤ 2 ^ (intSize a - 1)
          else Spec.decimalValue (Spec.magnitude s) < 2 ^ (intSize a - 1)) then
        some (if Spec.isNegative s = true then -(Spec.decimalValue (Spec.magnitude s) : Int)
          else (Spec.decimalValue (Spec.magnitude s) : Int))
      else none := by
  unfold Spec.atoiLiteral
  rw [intLiteral_eq]
  generalize Spec.decimalValue (Spec.magnitude s) = v
  have hpow : ((2 ^ (intSize a - 1) : Nat) : Int) = (2 : Int) ^ (intSize a - 1) := by
    push_cast; rfl
  rw [← hpow]
  have hkpos : 0 < 2 ^ (intSize a - 1) := Nat.pow_pos (by decide)
  generalize 2 ^ (intSize a - 1) = k at hkpos ⊢
  by_cases hd : Spec.isDecimal (Spec.magnitude s) = true
  · cases hn : Spec.isNegative s with
    | true =>
      simp only [hd, if_true, true_and]
      by_cases hk : v ≤ k
      · rw [if_pos hk, if_pos (by omega)]
      · rw [if_neg hk, if_neg (by omega)]
    | false =>
      simp only [hd, if_true, true_and, Bool.false_eq_true, if_false]
      by_cases hk : v < k
      · rw [if_pos hk, if_pos (by omega)]
      · rw [if_neg hk, if_neg (by omega)]
  · simp [hd]

theorem ParseInt_eq (a : Arch) (s : String) (hs : s ≠ "") :
    ParseInt a s =
      if (ParseUint a (String.mk (Spec.magnitude s))).2.isSome ∧
          (ParseUint a (String.mk (Spec.magnitude s))).2.map (fun e => e.Err) ≠ some .ErrRange then
        (0, (ParseUint a (String.mk (Spec.magnitude s))).2.map
          (fun e => { e with Func := "ParseInt", Num := s }))
      else if (!Spec.isNegative s &&
          decide ((ParseUint a (String.mk (Spec.magnitude s))).1 ≥ 2 ^ (intSize a - 1))) = true then
        (((2 ^ (intSize a - 1) - 1 : Nat) : Int), some (rangeError "ParseInt" s))
      else if (Spec.isNegative s &&
          decide ((ParseUint a (String.mk (Spec.magnitude s))).1 > 2 ^ (intSize a - 1))) = true then
        (-((2 ^ (intSize a - 1) : Nat) : Int), some (rangeError "ParseInt" s))
      else
        (if Spec.isNegative s = true then
            wrapInt 64 (-(wrapInt 64 ((ParseUint a (String.mk (Spec.magnitude s))).1 : Int)))
          else wrapInt 64 ((ParseUint a (String.mk (Spec.magnitude s))).1 : Int), none) := by
  unfold ParseInt
  rw [if_neg hs]
  rfl

theorem wrapInt64_small (v : Nat) (h : v < 2 ^ 63) : wrapInt 64 (v : Int) = v := by
  unfold wrapInt
  norm_num at h ⊢
  omega

theorem wrapInt64_neg (v : Nat) (h : v ≤ 2 ^ 63) :
    wrapInt 64 (-(wrapInt 64 (v : Int))) = -(v : Int) := by
  unfold wrapInt
  norm_num at h ⊢
  omega

theorem wrapInt_id (a : Arch) (v : Int)
    (h : -(2 ^ (intSize a - 1) : Int) ≤ v ∧ v < (2 ^ (intSize a - 1) : Int)) :
    wrapInt (intSize a) v = v := by
  unfold wrapInt
  rcases intSize_cases a with hw | hw <;> rw [hw] at h ⊢ <;> norm_num at h ⊢ <;> omega


/-- Go `ParseInt(s, 10, 0)` accepts exactly the literals whose value fits in `int`
and returns the value denoted. -/
theorem ParseInt_spec (a : Arch) (s : String) :
    (∃ v, Spec.atoiLiteral a s = some v ∧ ParseInt a s = (v, none)) ∨
    (Spec.atoiLiteral a s = none ∧ (ParseInt a s).2.isSome = true) := by
  by_cases hs : s = ""
  · subst hs
    right
    exact ⟨rfl, rfl⟩
  · rw [ParseInt_eq a s hs, atoiLiteral_eq]
    have hw := intSize_cases a
    rcases ParseUint_spec a (Spec.magnitude s) with ⟨hd, hle, hr⟩ | ⟨hnot, hr | hr⟩
    · rw [hr]
      simp only [Option.isSome_none, Bool.false_eq_true, false_and, if_false, hd, true_and]
      generalize Spec.decimalValue (Spec.magnitude s) = v at hle ⊢
      cases hn : Spec.isNegative s with
      | false =>
        simp only [Bool.not_false, Bool.true_and, Bool.false_and, Bool.false_eq_true, if_false,
          decide_eq_true_eq]
        by_cases hk : v < 2 ^ (intSize a - 1)
        · left
          rw [if_pos hk, if_neg (by omega)]
          refine ⟨_, rfl, ?_⟩
          rw [wrapInt64_small v]
          rcases hw with h | h <;> rw [h] at hk <;> norm_num at hk ⊢ <;> omega
        · right
          rw [if_neg hk, if_pos (by omega)]
          exact ⟨rfl, rfl⟩
      | true =>
        simp only [Bool.not_true, Bool.true_and, Bool.false_and, Bool.false_eq_true, if_false,
          if_true, decide_eq_true_eq]
        by_cases hk : v ≤ 2 ^ (intSize a - 1)
        · left
          rw [if_pos hk, if_neg (by omega)]
          refine ⟨_, rfl, ?_⟩
          rw [wrapInt64_neg v]
          rcases hw with h | h <;> rw [h] at hk <;> norm_num at hk ⊢ <;> omega
        · right
          rw [if_neg hk, if_pos (by omega)]
          exact ⟨rfl, rfl⟩
    · right
      rw [hr]
      constructor
      · rw [if_neg]
        rintro ⟨hd, hb⟩
        apply hnot
        refine ⟨hd, ?_⟩
        have : 2 ^ (intSize a - 1) ≤ 2 ^ intSize a - 1 := by
          rcases hw with h | h <;> rw [h] <;> norm_num
        split at hb <;> omega
      · rw [if_pos]
        · rfl
        · exact ⟨rfl, by simp [syntaxError]⟩
    · right
      rw [hr]
      constructor
      · rw [if_neg]
        rintro ⟨hd, hb⟩
        apply hnot
        refine ⟨hd, ?_⟩
        have : 2 ^ (intSize a - 1) ≤ 2 ^ intSize a - 1 := by
          rcases hw with h | h <;> rw [h] <;> norm_num
        split at hb <;> omega
      · rw [if_neg (by simp [rangeError])]
        have h1 : 2 ^ (intSize a - 1) < 2 ^ intSize a - 1 := by
          rcases hw with h | h <;> rw [h] <;> norm_num
        cases hn : Spec.isNegative s with
        | false =>
          simp only [Bool.not_false, Bool.true_and, decide_eq_true_eq]
          rw [if_pos (by omega)]
          rfl
        | true =>
          simp only [Bool.not_true, Bool.false_and, Bool.false_eq_true, if_false, Bool.true_and,
            decide_eq_true_eq]
          rw [if_pos (by omega)]
          rfl


theorem length_le_utf8ByteSize_go (cs : List Char) : cs.length ≤ String.utf8ByteSize.go cs := by
  induction cs with
  | nil => exact Nat.le_refl 0
  | cons c cs ih =>
    have hc := Char.utf8Size_pos c
    simp only [String.utf8ByteSize.go, List.length_cons]
    omega

theorem length_le_utf8ByteSize (s : String) : s.data.length ≤ s.utf8ByteSize := by
  cases s with
  | mk data => exact length_le_utf8ByteSize_go data

theorem Atoi_loop_none (a : Arch) (cs : List Char) (n : Int) (h : ¬ cs.all isDigit = true) :
    Atoi.loop a cs n = none := by
  induction cs generalizing n with
  | nil => exact absurd rfl h
  | cons c cs ih =>
    rw [Atoi.loop]
    by_cases hd : isDigit c = true
    · simp only [hd, Bool.not_true, Bool.false_eq_true, if_false]
      apply ih
      intro hall
      apply h
      rw [List.all_cons, hd, hall]
      rfl
    · simp only [Bool.not_eq_true] at hd
      simp [hd]

theorem Atoi_loop_some (a : Arch) (cs : List Char) (n : Nat) (h : cs.all isDigit = true)
    (hfit : Spec.decimalFrom n cs < 2 ^ (intSize a - 1)) :
    Atoi.loop a cs (n : Int) = some (Spec.decimalFrom n cs : Int) := by
  induction cs generalizing n with
  | nil => rfl
  | cons c cs ih =>
    rw [List.all_cons, Bool.and_eq_true] at h
    rw [Atoi.loop, decimalFrom_cons]
    rw [decimalFrom_cons] at hfit
    simp only [h.1, Bool.not_true, Bool.false_eq_true, if_false]
    have hmono := le_decimalFrom cs (10 * n + digitVal c)
    have hstep : wrapInt (intSize a) ((n : Int) * 10 + (digitVal c : Int)) =
        ((10 * n + digitVal c : Nat) : Int) := by
      rw [wrapInt_id]
      · push_cast; ring
      · have hlt : 10 * n + digitVal c < 2 ^ (intSize a - 1) := by omega
        have hcast : ((10 * n + digitVal c : Nat) : Int) < ((2 ^ (intSize a - 1) : Nat) : Int) :=
          Int.ofNat_lt.2 hlt
        push_cast at hcast
        have hpos : (0 : Int) < 2 ^ (intSize a - 1) := by positivity
        constructor <;> omega
    rw [hstep]
    exact ih _ h.2 hfit

theorem atoiLiteral_range (a : Arch) (s : String) (v : Int) (h : Spec.atoiLiteral a s = some v) :
    -(2 ^ (intSize a - 1) : Int) ≤ v ∧ v < (2 ^ (intSize a - 1) : Int) := by
  unfold Spec.atoiLiteral at h
  split at h
  · exact absurd h (by simp)
  · split at h
    · injection h with h
      subst h
      assumption
    · exact absurd h (by simp)


theorem Atoi_fast_eq (a : Arch) (s : String)
    (hfast : (intSize a = 32 ∧ 0 < s.utf8ByteSize ∧ s.utf8ByteSize < 10) ∨
      (intSize a = 64 ∧ 0 < s.utf8ByteSize ∧ s.utf8ByteSize < 19)) :
    Atoi a s =
      if (decide (s.data.head? = some '-' ∨ s.data.head? = some '+') &&
          decide ((Spec.magnitude s).length < 1)) = true then
        (0, some (syntaxError "Atoi" s))
      else
        match Atoi.loop a (Spec.magnitude s) 0 with
        | none => (0, some (syntaxError "Atoi" s))
        | some n => (if Spec.isNegative s = true then wrapInt (intSize a) (-n) else n, none) := by
  have hmag : (if s.data.head? = some '-' ∨ s.data.head? = some '+'
      then s.data.tail else s.data) = Spec.magnitude s := by
    simp only [Spec.magnitude, or_comm]
  unfold Atoi
  simp only [Spec.isNegative, decide_eq_true_eq, hmag]
  rw [if_pos hfast]

theorem Atoi_slow_eq (a : Arch) (s : String)
    (hslow : ¬ ((intSize a = 32 ∧ 0 < s.utf8ByteSize ∧ s.utf8ByteSize < 10) ∨
      (intSize a = 64 ∧ 0 < s.utf8ByteSize ∧ s.utf8ByteSize < 19))) :
    Atoi a s = (wrapInt (intSize a) (ParseInt a s).1,
      (ParseInt a s).2.map (fun e => { e with Func := "Atoi" })) := by
  unfold Atoi
  simp only []
  rw [if_neg hslow]

/-- On the fast path the digits after the sign are few enough for their value to
fit in `int`. -/
theorem fast_value_fits (a : Arch) (s : String)
    (hfast : (intSize a = 32 ∧ 0 < s.utf8ByteSize ∧ s.utf8ByteSize < 10) ∨
      (intSize a = 64 ∧ 0 < s.utf8ByteSize ∧ s.utf8ByteSize < 19))
    (hall : (Spec.magnitude s).all isDigit = true) :
    Spec.decimalFrom 0 (Spec.magnitude s) < 2 ^ (intSize a - 1) := by
  have hlen := length_le_utf8ByteSize s
  have hmlen : (Spec.magnitude s).length ≤ s.data.length := by
    unfold Spec.magnitude
    split
    · rw [List.length_tail]; omega
    · exact Nat.le_refl _
  have hval := decimalFrom_lt (Spec.magnitude s) 0 hall
  rcases hfast with ⟨hw, -, hlt⟩ | ⟨hw, -, hlt⟩
  · have hp : 10 ^ (Spec.magnitude s).length ≤ 10 ^ 9 :=
      Nat.pow_le_pow_right (by decide) (by omega)
    rw [hw]
    norm_num at hp hval ⊢
    omega
  · have hp : 10 ^ (Spec.magnitude s).length ≤ 10 ^ 18 :=
      Nat.pow_le_pow_right (by decide) (by omega)
    rw [hw]
    norm_num at hp hval ⊢
    omega

/-- Go `Atoi` accepts exactly the base-10 integer literals whose value fits in `int`,
and returns the integer denoted. -/
theorem Atoi_spec (a : Arch) (s : String) :
    (∃ v, Spec.atoiLiteral a s = some v ∧ Atoi a s = (v, none)) ∨
    (Spec.atoiLiteral a s = none ∧ (Atoi a s).2.isSome = true) := by
  by_cases hfast : (intSize a = 32 ∧ 0 < s.utf8ByteSize ∧ s.utf8ByteSize < 10) ∨
      (intSize a = 64 ∧ 0 < s.utf8ByteSize ∧ s.utf8ByteSize < 19)
  · have hA := Atoi_fast_eq a s hfast
    have hL := atoiLiteral_eq a s
    have hne : s.data ≠ [] := by
      intro h
      have h0 : s.utf8ByteSize = 0 := by
        cases s with
        | mk data => simp only at h; subst h; rfl
      omega
    by_cases hempty : (Spec.magnitude s).length < 1
    · have hnil : Spec.magnitude s = [] := List.length_eq_zero.1 (by omega)
      have hsigned : s.data.head? = some '-' ∨ s.data.head? = some '+' := by
        by_contra hns
        have : Spec.magnitude s = s.data := by
          unfold Spec.magnitude
          rw [if_neg (fun h => hns (Or.symm h))]
        exact hne (this ▸ hnil)
      have hc : (decide (s.data.head? = some '-' ∨ s.data.head? = some '+') &&
          decide ((Spec.magnitude s).length < 1)) = true := by
        simp [hsigned, hempty]
      have hd : ¬ (Spec.isDecimal (Spec.magnitude s) = true ∧
          (if Spec.isNegative s = true then
            Spec.decimalValue (Spec.magnitude s) ≤ 2 ^ (intSize a - 1)
          else Spec.decimalValue (Spec.magnitude s) < 2 ^ (intSize a - 1))) := by
        rw [hnil]
        simp [Spec.isDecimal]
      rw [if_pos hc] at hA
      rw [if_neg hd] at hL
      right
      rw [hA, hL]
      exact ⟨rfl, rfl⟩
    · have hc : ¬ ((decide (s.data.head? = some '-' ∨ s.data.head? = some '+') &&
          decide ((Spec.magnitude s).length < 1)) = true) := by
        simp [hempty]
      rw [if_neg hc] at hA
      by_cases hall : (Spec.magnitude s).all isDigit = true
      · have hdec : Spec.isDecimal (Spec.magnitude s) = true := by
          unfold Spec.isDecimal
          rw [hall]
          cases hm : Spec.magnitude s with
          | nil => rw [hm] at hempty; exact absurd (by decide) hempty
          | cons c cs => rfl
        have hfit := fast_value_fits a s hfast hall
        have hloop := Atoi_loop_some a (Spec.magnitude s) 0 hall hfit
        rw [Nat.cast_zero] at hloop
        rw [hloop] at hA
        have hd : Spec.isDecimal (Spec.magnitude s) = true ∧
            (if Spec.isNegative s = true then
              Spec.decimalValue (Spec.magnitude s) ≤ 2 ^ (intSize a - 1)
            else Spec.decimalValue (Spec.magnitude s) < 2 ^ (intSize a - 1)) := by
          refine ⟨hdec, ?_⟩
          unfold Spec.decimalValue
          split <;> omega
        rw [if_pos hd] at hL
        left
        refine ⟨_, hL, ?_⟩
        rw [hA]
        simp only [Spec.decimalValue]
        cases hn : Spec.isNegative s with
        | false => rfl
        | true =>
          simp only [if_true]
          rw [wrapInt_id]
          have hcast : ((Spec.decimalFrom 0 (Spec.magnitude s) : Nat) : Int) <
              ((2 ^ (intSize a - 1) : Nat) : Int) := Int.ofNat_lt.2 hfit
          push_cast at hcast
          constructor <;> omega
      · rw [Atoi_loop_none a _ 0 hall] at hA
        have hd : ¬ (Spec.isDecimal (Spec.magnitude s) = true ∧
            (if Spec.isNegative s = true then
              Spec.decimalValue (Spec.magnitude s) ≤ 2 ^ (intSize a - 1)
            else Spec.decimalValue (Spec.magnitude s) < 2 ^ (intSize a - 1))) := by
          rintro ⟨hd, -⟩
          apply hall
          unfold Spec.isDecimal at hd
          rw [Bool.and_eq_true] at hd
          exact hd.2
        rw [if_neg hd] at hL
        right
        rw [hA, hL]
        exact ⟨rfl, rfl⟩
  · rw [Atoi_slow_eq a s hfast]
    rcases ParseInt_spec a s with ⟨v, hv, hp⟩ | ⟨hn, hp⟩
    · left
      refine ⟨v, hv, ?_⟩
      rw [hp]
      simp only [Option.map_none']
      rw [wrapInt_id a v (atoiLiteral_range a s v hv)]
    · right
      refine ⟨hn, ?_⟩
      simp only [Option.isSome_map']
      exact hp

end strconv

theorem ParseBool_spec (str : String) :
    strconv.ParseBool str =
      match Spec.boolLiteral str with
      | some v => (v, none)
      | none => (false, some (strconv.syntaxError "ParseBool" str)) := by
  unfold strconv.ParseBool Spec.boolLiteral
  simp only [List.mem_cons, List.mem_singleton, List.not_mem_nil, or_false]
  by_cases h1 : str = "1" ∨ str = "t" ∨ str = "T" ∨ str = "TRUE" ∨ str = "true" ∨ str = "True"
  · rw [if_pos h1, if_pos h1]
  · rw [if_neg h1, if_neg h1]
    by_cases h2 : str = "0" ∨ str = "f" ∨ str = "F" ∨ str = "FALSE" ∨ str = "false" ∨
        str = "False"
    · rw [if_pos h2, if_pos h2]
    · rw [if_neg h2, if_neg h2]

/-- C8: `ParseInt(str, def)` returns the integer denoted by `str` when `str` is a
base-10 integer literal (optional sign, one or more decimal digits) whose value
fits in `int`, which are exactly the strings `strconv.Atoi` accepts, and `def`
otherwise; `ParseBool(str, def)` returns the boolean denoted by `str` when `str`
is one of the twelve literals, which are exactly the strings `strconv.ParseBool`
accepts, and `def` otherwise. Both are total functions. -/
theorem C8_parse_or_default (a : strconv.Arch) (str : String) (d : Int) (b : Bool) :
    ((strconv.Atoi a str).2 = none ↔ (Spec.atoiLiteral a str).isSome = true) ∧
    common.ParseInt a str d = (Spec.atoiLiteral a str).getD d ∧
    ((strconv.ParseBool str).2 = none ↔ (Spec.boolLiteral str).isSome = true) ∧
    common.ParseBool str b = (Spec.boolLiteral str).getD b := by
  refine ⟨?_, ?_, ?_, ?_⟩
  · rcases strconv.Atoi_spec a str with ⟨v, hv, hA⟩ | ⟨hn, hA⟩
    · rw [hv, hA]
      exact ⟨fun _ => rfl, fun _ => rfl⟩
    · rw [hn]
      constructor
      · intro h
        rw [h] at hA
        exact absurd hA (by decide)
      · intro h
        exact absurd h (by decide)
  · unfold common.ParseInt
    rcases strconv.Atoi_spec a str with ⟨v, hv, hA⟩ | ⟨hn, hA⟩
    · rw [hv, hA]
      simp
    · rw [hn]
      have hne : (strconv.Atoi a str).2 ≠ none := by
        intro h
        rw [h] at hA
        exact absurd hA (by decide)
      simp [hne]
  · rw [ParseBool_spec]
    cases Spec.boolLiteral str with
    | none => simp
    | some v => simp
  · unfold common.ParseBool
    rw [ParseBool_spec]
    cases Spec.boolLiteral str with
    | none => simp
    | some v => simp

/-- Values of the parse helpers on sample inputs: literals at the edge of the
`int` range, signs, and strings that are no literals. -/
theorem parse_helpers_examples :
    common.ParseInt .bits64 "42" 7 = 42 ∧
    common.ParseInt .bits64 "-9223372036854775808" 7 = -9223372036854775808 ∧
    common.ParseInt .bits64 "9223372036854775808" 7 = 7 ∧
    common.ParseInt .bits32 "2147483648" 7 = 7 ∧
    common.ParseInt .bits32 "+2147483647" 7 = 2147483647 ∧
    common.ParseInt .bits64 "" 7 = 7 ∧
    common.ParseInt .bits64 "-" 7 = 7 ∧
    common.ParseInt .bits64 "12a" 7 = 7 ∧
    common.ParseBool "TRUE" false = true ∧
    common.ParseBool "F" true = false ∧
    common.ParseBool "yes" true = true ∧
    common.ParseBool "tRUE" false = false := by
  decide
